import Mathlib

/-
Verification of the sign_plugin card-rendering engine (src/draw.py) against its
specification. Each numbered claim is settled by one theorem below.

Modelling conventions (shallow embedding):
* Text is a list of Unicode code points (`List Nat`).
* Python `Decimal` arithmetic is modelled exactly over `ℚ`; `ROUND_HALF_UP`
  quantization to two places is `quantize2`. The 28-significant-digit context of
  the `decimal` module and the final `float()` conversion are below the
  granularity of every claim and are not modelled.
* `unicodedata.combining`, `unicodedata.category`, `str.isdigit`,
  `unicodedata.east_asian_width` are ambient tables; they enter as function
  parameters so theorems hold for the real tables.
* Font metrics: `font.getlength` under PIL's basic layout is the sum of
  per-code-point advance widths; a font handle is an abstract type `F` with
  decidable equality and an advance function `F → Nat → ℚ`.
* Fallible Python code (raise) is modelled with `Except`/`Option`.
-/

/-! ## Streak bonus (ImageGen._get_streak_bonus_percent, src/draw.py:589-595) -/

/-- Transcription of `ImageGen._get_streak_bonus_percent`. The argument models
`self.continuous_days`; `none` is a missing value, and `int(self.continuous_days or 0)`
maps both `None` and `0` to `0` (falsy), which the inner match reproduces. -/
def getStreakBonusPercent (continuousDays : Option Int) : Int :=
  let streak : Int :=
    match continuousDays with
    | none => 0
    | some v => if v = 0 then 0 else v
  if 7 ≤ streak then 15
  else if 3 ≤ streak then 10
  else 0

/-! ## Attitude label (ImageGen._get_level, src/draw.py:569-587) -/

/-- Python `x or "未知"` over an optional string: both `None` and the empty string
are falsy and fall back to "未知". -/
def orUnknown (s : Option String) : String :=
  match s with
  | none => "未知"
  | some t => if t = "" then "未知" else t

/-- Transcription of `ImageGen._get_level`. `level` models `self.level` as an
optional rational (a Python `match` against the literals 1..8 compares with `==`,
so e.g. `1.0` also matches `case 1`); `levelWord n` models
`self.level_word.get("lv" ++ toString n)`. -/
def getLevel (levelWord : Nat → Option String) (level : Option ℚ) : String :=
  match level with
  | none => "未知"
  | some l =>
    if l = 1 then orUnknown (levelWord 1)
    else if l = 2 then orUnknown (levelWord 2)
    else if l = 3 then orUnknown (levelWord 3)
    else if l = 4 then orUnknown (levelWord 4)
    else if l = 5 then orUnknown (levelWord 5)
    else if l = 6 then orUnknown (levelWord 6)
    else if l = 7 then orUnknown (levelWord 7)
    else if l = 8 then orUnknown (levelWord 8)
    else "未知"

/-! ## Progress ratio (ImageGen._draw_sync, src/draw.py:1007-1012) -/

/-- Integer rounding used by `Decimal.quantize(..., rounding=ROUND_HALF_UP)`:
round to nearest, ties away from zero. -/
def roundHalfUp (y : ℚ) : Int :=
  if 0 ≤ y then ⌊y + 1/2⌋ else -⌊-y + 1/2⌋

/-- `x.quantize(Decimal("0.01"), rounding=ROUND_HALF_UP)`: round to two decimal
places, half away from zero. -/
def quantize2 (x : ℚ) : ℚ :=
  (roundHalfUp (100 * x) : ℚ) / 100

/-- `self.level or 1`: `None` and `0` are falsy and become `1`. -/
def levelOr1 (level : Option ℚ) : ℚ :=
  match level with
  | none => 1
  | some l => if l = 0 then 1 else l

/-- The quantized threshold `next_level_score` of src/draw.py:1008-1011:
`Decimal(str((self.level or 1) * self.next_score))`, replaced by `0.01` when
non-positive, then quantized half-up to two places. -/
def nextLevelScore (level : Option ℚ) (nextScore : ℚ) : ℚ :=
  quantize2 (if levelOr1 level * nextScore ≤ 0 then 1/100 else levelOr1 level * nextScore)

/-- `progress_ratio` of src/draw.py:1007-1012:
`float(max(Decimal("0"), min(Decimal("1"), impression_value / next_level_score)))`.
`impression` models `self.impression` (`none` = missing; `self.impression or 0`
sends both to 0). When the quantized threshold is 0 (possible for a positive raw
threshold below 0.005) the Decimal division raises `DivisionByZero`; that is the
`none` result. -/
def progressRatioValue (level : Option ℚ) (nextScore : ℚ) (impression : Option ℚ) : Option ℚ :=
  if nextLevelScore level nextScore = 0 then none
  else some (max 0 (min 1 (quantize2 (impression.getD 0) / nextLevelScore level nextScore)))

/-! ## Theorems for claims C6, C7, C8, C10 -/

theorem orUnknown_ne_empty (s : Option String) : orUnknown s ≠ "" := by
  match s with
  | none => simp [orUnknown]
  | some t =>
    simp only [orUnknown]
    split
    · simp
    · assumption

theorem quantize2_nonneg {x : ℚ} (hx : 0 ≤ x) : 0 ≤ quantize2 x := by
  have h100 : (0:ℚ) ≤ 100 * x := by positivity
  unfold quantize2 roundHalfUp
  rw [if_pos h100]
  have : (0:Int) ≤ ⌊100 * x + 1/2⌋ := by
    rw [Int.le_floor]
    push_cast
    linarith
  positivity

theorem nextLevelScore_nonneg (level : Option ℚ) (nextScore : ℚ) :
    0 ≤ nextLevelScore level nextScore := by
  unfold nextLevelScore
  split
  · exact quantize2_nonneg (by norm_num)
  · exact quantize2_nonneg (by linarith [lt_of_not_le (by assumption : ¬ levelOr1 level * nextScore ≤ 0)])

/-- Claim C8: the streak-bonus percentage is a pure function of the
continuous-days count: 15 for every streak ≥ 7, 10 for streaks 3..6, 0 otherwise
(including 0, 1, 2, negative and missing streaks); in particular bonus(0)=0,
bonus(2)=0, bonus(3)=10, bonus(6)=10, bonus(7)=15, bonus(100)=15. -/
theorem streak_bonus_table :
    (∀ s : Int, getStreakBonusPercent (some s) =
      if 7 ≤ s then 15 else if 3 ≤ s then 10 else 0)
    ∧ getStreakBonusPercent none = 0
    ∧ getStreakBonusPercent (some (-5)) = 0
    ∧ getStreakBonusPercent (some 0) = 0
    ∧ getStreakBonusPercent (some 2) = 0
    ∧ getStreakBonusPercent (some 3) = 10
    ∧ getStreakBonusPercent (some 6) = 10
    ∧ getStreakBonusPercent (some 7) = 15
    ∧ getStreakBonusPercent (some 100) = 15 := by
  refine ⟨fun s => ?_, by decide, by decide, by decide, by decide, by decide, by decide, by decide, by decide⟩
  by_cases hs : s = 0
  · subst hs; decide
  · simp only [getStreakBonusPercent, if_neg hs]

/-- Claim C10: the attitude-label lookup is total and never fails. For `None`
and any level value outside 1..8 it returns "未知"; for a level in 1..8 whose
configured label is absent or empty it also returns "未知"; the result is never
the empty string, so the card always renders some attitude label. -/
theorem get_level_total (levelWord : Nat → Option String) :
    getLevel levelWord none = "未知"
    ∧ (∀ l : ℚ, l ∉ ([1, 2, 3, 4, 5, 6, 7, 8] : List ℚ) → getLevel levelWord (some l) = "未知")
    ∧ (∀ n : Nat, 1 ≤ n → n ≤ 8 → (levelWord n = none ∨ levelWord n = some "") →
        getLevel levelWord (some (n : ℚ)) = "未知")
    ∧ (∀ level : Option ℚ, getLevel levelWord level ≠ "") := by
  refine ⟨rfl, ?_, ?_, ?_⟩
  · intro l hl
    simp only [List.mem_cons, List.not_mem_nil, or_false, not_or] at hl
    obtain ⟨h1, h2, h3, h4, h5, h6, h7, h8⟩ := hl
    simp [getLevel, h1, h2, h3, h4, h5, h6, h7, h8]
  · intro n hn1 hn8 hw
    have hword : orUnknown (levelWord n) = "未知" := by
      rcases hw with h | h <;> simp [orUnknown, h]
    interval_cases n <;> simpa [getLevel] using hword
  · intro level
    match level with
    | none => simp [getLevel]
    | some l =>
      simp only [getLevel]
      split_ifs <;> first | exact orUnknown_ne_empty _ | simp

/-- A concrete label table for witnesses: level 2 labelled, level 3 empty,
the rest missing. -/
def exampleLevelWord (n : Nat) : Option String :=
  if n = 2 then some "友好" else if n = 3 then some "" else none

/-- Witness for C10 at a concrete label table. -/
theorem get_level_total_witness :
    getLevel exampleLevelWord none = "未知"
    ∧ getLevel exampleLevelWord (some 10) = "未知"
    ∧ getLevel exampleLevelWord (some 3) = "未知"
    ∧ getLevel exampleLevelWord (some 2) ≠ "" :=
  ⟨(get_level_total exampleLevelWord).1,
   (get_level_total exampleLevelWord).2.1 10 (by norm_num),
   by
     have h := (get_level_total exampleLevelWord).2.2.1 3 (by decide) (by decide)
       (Or.inr rfl)
     simpa using h,
   (get_level_total exampleLevelWord).2.2.2 (some 2)⟩

/-- Claim C6: whenever _draw_sync computes a progress ratio, it equals
clamp(impression / (level * next_score), 0, 1) in exact decimal arithmetic with
both quantities rounded half-up to two places (a non-positive threshold replaced
by 0.01), and it lies within [0, 1] for every impression, including negative and
zero values. -/
theorem progress_ratio_clamped (level : Option ℚ) (nextScore : ℚ) (impression : Option ℚ)
    (r : ℚ) (h : progressRatioValue level nextScore impression = some r) :
    r = max 0 (min 1 (quantize2 (impression.getD 0) / nextLevelScore level nextScore))
    ∧ 0 ≤ r ∧ r ≤ 1 := by
  unfold progressRatioValue at h
  split at h
  · exact absurd h (by simp)
  · have hr := Option.some.inj h
    refine ⟨hr.symm, ?_, ?_⟩
    · rw [← hr]; exact le_max_left 0 _
    · rw [← hr]; exact max_le zero_le_one (min_le_left 1 _)

/-- Witness for C6 at level 1, next_score 25, impression 12.5. -/
theorem progress_ratio_clamped_witness :
    progressRatioValue (some 1) 25 (some (25/2)) = some (1/2)
    ∧ (0:ℚ) ≤ 1/2 ∧ (1:ℚ)/2 ≤ 1 := by
  have h : progressRatioValue (some 1) 25 (some (25/2)) = some (1/2) := by
    norm_num [progressRatioValue, nextLevelScore, quantize2, roundHalfUp, levelOr1]
  exact ⟨h, (progress_ratio_clamped (some 1) 25 (some (25/2)) (1/2) h).2.1,
         (progress_ratio_clamped (some 1) 25 (some (25/2)) (1/2) h).2.2⟩

/-- Counterexample to claim C7 as stated: impressions 0.101 < 0.102 quantize to
the same two-place value 0.10, so at level 1 and next_score 25 both display the
ratio 0.004 (< 1, below the clamp) and the ratio does not strictly increase. -/
theorem progress_ratio_not_strict_mono :
    (101/1000 : ℚ) < 102/1000
    ∧ progressRatioValue (some 1) 25 (some (101/1000)) = some (1/250)
    ∧ progressRatioValue (some 1) 25 (some (102/1000)) = some (1/250)
    ∧ (1/250 : ℚ) < 1 := by
  refine ⟨by norm_num,
    by norm_num [progressRatioValue, nextLevelScore, quantize2, roundHalfUp, levelOr1],
    by norm_num [progressRatioValue, nextLevelScore, quantize2, roundHalfUp, levelOr1],
    by norm_num⟩

/-- Claim C7 (amended): for fixed level and next_score, the displayed ratio is
strictly increasing in the impression once the two-place half-up roundings of
the impressions differ: for a < b with quantize2 a < quantize2 b, ratio(a)
below the 1.0 clamp and quantize2 b positive, ratio(a) < ratio(b). -/
theorem progress_ratio_strict_mono (level : Option ℚ) (nextScore : ℚ) (a b ra rb : ℚ)
    (ha : progressRatioValue level nextScore (some a) = some ra)
    (hb : progressRatioValue level nextScore (some b) = some rb)
    (hq : quantize2 a < quantize2 b) (h1 : ra < 1) (hbpos : 0 < quantize2 b) :
    ra < rb := by
  unfold progressRatioValue at ha hb
  split at ha
  · exact absurd ha (by simp)
  · rename_i hthr
    rw [if_neg hthr] at hb
    have hthr' : 0 < nextLevelScore level nextScore :=
      lt_of_le_of_ne (nextLevelScore_nonneg level nextScore) (Ne.symm hthr)
    set thr := nextLevelScore level nextScore with hthrdef
    have hra := Option.some.inj ha
    have hrb := Option.some.inj hb
    simp only [Option.getD_some] at hra hrb
    have hdivlt : quantize2 a / thr < quantize2 b / thr := by gcongr
    by_cases hb1 : 1 ≤ quantize2 b / thr
    · have : rb = 1 := by
        rw [← hrb, min_eq_left hb1, max_eq_right zero_le_one]
      rw [this]; exact h1
    · push_neg at hb1
      have hbpos' : 0 < quantize2 b / thr := div_pos hbpos hthr'
      have hrbeq : rb = quantize2 b / thr := by
        rw [← hrb, min_eq_right (le_of_lt hb1), max_eq_right (le_of_lt hbpos')]
      have ha1 : quantize2 a / thr < 1 := lt_trans hdivlt hb1
      have hraeq : ra = max 0 (quantize2 a / thr) := by
        rw [← hra, min_eq_right (le_of_lt ha1)]
      rw [hraeq, hrbeq]
      exact max_lt hbpos' hdivlt

/-- Witness for the amended C7 at level 1, next_score 25, impressions 5 < 10. -/
theorem progress_ratio_strict_mono_witness :
    progressRatioValue (some 1) 25 (some 5) = some (1/5)
    ∧ progressRatioValue (some 1) 25 (some 10) = some (2/5)
    ∧ (1/5 : ℚ) < 2/5 :=
  ⟨by norm_num [progressRatioValue, nextLevelScore, quantize2, roundHalfUp, levelOr1],
   by norm_num [progressRatioValue, nextLevelScore, quantize2, roundHalfUp, levelOr1],
   progress_ratio_strict_mono (some 1) 25 5 10 (1/5) (2/5)
     (by norm_num [progressRatioValue, nextLevelScore, quantize2, roundHalfUp, levelOr1])
     (by norm_num [progressRatioValue, nextLevelScore, quantize2, roundHalfUp, levelOr1])
     (by norm_num [quantize2, roundHalfUp]) (by norm_num)
     (by norm_num [quantize2, roundHalfUp])⟩

/-! ## Cache-path sanitization (src/draw.py:63-89)

Paths are modelled as character lists. `IMAGE_DIR` is built from
`os.path.dirname(__file__)` and is absolute and normalized at runtime; it is
modelled by an arbitrary nonempty list of well-formed path segments. -/

/-- The characters kept by the regex class `[0-9A-Za-z_-]` in
`_sanitize_path_token`; every other character is replaced by '_'. -/
def safeChar (c : Char) : Bool :=
  ('0' ≤ c && c ≤ '9') || ('A' ≤ c && c ≤ 'Z') || ('a' ≤ c && c ≤ 'z') || c = '_' || c = '-'

/-- Python `str.strip()`: drop whitespace from both ends. -/
def stripWs (l : List Char) : List Char :=
  ((l.dropWhile Char.isWhitespace).reverse.dropWhile Char.isWhitespace).reverse

/-- Python `str.strip("_")`: drop underscores from both ends. -/
def stripUnderscore (l : List Char) : List Char :=
  ((l.dropWhile (· = '_')).reverse.dropWhile (· = '_')).reverse

/-- Transcription of `_sanitize_path_token` (src/draw.py:63-69). The argument
models `str(value or "")`: the str() image of the input, falsy inputs already
collapsed to the empty string. -/
def sanitizePathToken (value : List Char) : List Char :=
  if stripWs value = [] then "unknown".data
  else if stripUnderscore ((stripWs value).map fun c => if safeChar c then c else '_') = []
    then "unknown".data
  else stripUnderscore ((stripWs value).map fun c => if safeChar c then c else '_')

/-- Split a POSIX path at '/' (model of `str.split("/")`). -/
def splitSlash : List Char → List (List Char)
  | [] => [[]]
  | c :: cs =>
    if c = '/' then [] :: splitSlash cs
    else
      match splitSlash cs with
      | [] => [[c]]
      | s :: rest => (c :: s) :: rest

/-- One segment of `os.path.normpath` processing for an absolute path: empty and
"." segments vanish, ".." pops the previous segment (at the root it stays at the
root). -/
def normStep (acc : List (List Char)) (s : List Char) : List (List Char) :=
  if s = [] then acc
  else if s = ['.'] then acc
  else if s = ['.', '.'] then acc.dropLast
  else acc ++ [s]

/-- Normalize the segment list of an absolute POSIX path. -/
def normSegs (segs : List (List Char)) : List (List Char) :=
  segs.foldl normStep []

/-- Render an absolute path from segments ("/" for the empty list). -/
def renderAbs (segs : List (List Char)) : List Char :=
  if segs = [] then ['/'] else segs.foldl (fun acc s => acc ++ '/' :: s) []

/-- Model of `os.path.abspath` for an absolute input (every path fed to it here
is absolute because IMAGE_DIR is). -/
def absNorm (p : List Char) : List Char :=
  renderAbs (normSegs (splitSlash p))

/-- Model of `os.path.join(dir, filename)` for an absolute dir: an absolute
second argument replaces the first. -/
def osJoin (dir fname : List Char) : List Char :=
  if fname.head? = some '/' then fname else dir ++ '/' :: fname

/-- Python `str.startswith`: `listStartsWith p s` is true when `p` begins `s`. -/
def listStartsWith : List Char → List Char → Bool
  | [], _ => true
  | _ :: _, [] => false
  | p :: ps, c :: cs => p = c && listStartsWith ps cs

/-- Transcription of `_join_image_path` (src/draw.py:72-77) over the path model;
the `raise ValueError` branch is the `Except.error` case. -/
def joinImagePath (imageDir filename : List Char) : Except Unit (List Char) :=
  if listStartsWith (absNorm imageDir ++ ['/']) (absNorm (osJoin imageDir filename))
  then .ok (absNorm (osJoin imageDir filename)) else .error ()

/-- Transcription of `_build_sign_cache_path` (src/draw.py:86-89):
`f"\x7bsafe_uid\x7d-\x7bsafe_date\x7d.png"` joined under the image directory. -/
def buildSignCachePath (imageDir userid date : List Char) : Except Unit (List Char) :=
  joinImagePath imageDir
    (sanitizePathToken userid ++ ('-' :: (sanitizePathToken date ++ ".png".data)))

/-- Transcription of `_build_background_path` (src/draw.py:80-83). -/
def buildBackgroundPath (imageDir userid date : List Char) : Except Unit (List Char) :=
  joinImagePath imageDir
    ("background-".data ++ (sanitizePathToken userid ++ ('-' :: (sanitizePathToken date ++ ".png".data))))

/-- A well-formed path segment: nonempty, not "." or "..", and free of '/'. -/
def GoodSeg (s : List Char) : Prop :=
  s ≠ [] ∧ s ≠ ['.'] ∧ s ≠ ['.', '.'] ∧ '/' ∉ s

instance (s : List Char) : Decidable (GoodSeg s) := by
  unfold GoodSeg; infer_instance

theorem mem_of_mem_dropWhile {α : Type} {p : α → Bool} {l : List α} {a : α}
    (h : a ∈ l.dropWhile p) : a ∈ l := by
  induction l with
  | nil => simp at h
  | cons x xs ih =>
    rw [List.dropWhile_cons] at h
    split at h
    · exact List.mem_cons_of_mem x (ih h)
    · exact h

theorem mem_of_mem_stripUnderscore {l : List Char} {c : Char}
    (h : c ∈ stripUnderscore l) : c ∈ l := by
  unfold stripUnderscore at h
  rw [List.mem_reverse] at h
  have h2 := mem_of_mem_dropWhile h
  rw [List.mem_reverse] at h2
  exact mem_of_mem_dropWhile h2

/-- The sanitizer's output is nonempty and uses only safe characters. -/
theorem sanitizePathToken_safe (value : List Char) :
    sanitizePathToken value ≠ [] ∧ ∀ c ∈ sanitizePathToken value, safeChar c = true := by
  have hunk : ("unknown".data ≠ [] ∧ ∀ c ∈ "unknown".data, safeChar c = true) := by decide
  unfold sanitizePathToken
  split
  · exact hunk
  · split
    · exact hunk
    · rename_i hne
      refine ⟨hne, fun c hc => ?_⟩
      have hc' := mem_of_mem_stripUnderscore hc
      rcases List.mem_map.mp hc' with ⟨d, _, hd⟩
      by_cases hsafe : safeChar d
      · rw [if_pos hsafe] at hd; rw [← hd]; exact hsafe
      · rw [if_neg hsafe] at hd; rw [← hd]; decide

theorem safeChar_ne_slash {c : Char} (h : safeChar c = true) : c ≠ '/' := by
  intro hc; subst hc; simp [safeChar] at h

theorem safeChar_ne_dot {c : Char} (h : safeChar c = true) : c ≠ '.' := by
  intro hc; subst hc; simp [safeChar] at h

theorem splitSlash_cons (c : Char) (cs : List Char) :
    splitSlash (c :: cs) =
      if c = '/' then [] :: splitSlash cs
      else
        match splitSlash cs with
        | [] => [[c]]
        | s :: rest => (c :: s) :: rest := rfl

theorem splitSlash_ne_nil (l : List Char) : splitSlash l ≠ [] := by
  match l with
  | [] => simp [splitSlash]
  | c :: cs =>
    rw [splitSlash_cons]
    split
    · simp
    · split <;> simp

theorem splitSlash_no_slash {l : List Char} (h : '/' ∉ l) : splitSlash l = [l] := by
  induction l with
  | nil => rfl
  | cons c cs ih =>
    have hc : ¬ c = '/' := fun hc => h (hc ▸ List.mem_cons_self c cs)
    have hcs : '/' ∉ cs := fun hm => h (List.mem_cons_of_mem c hm)
    rw [splitSlash_cons, if_neg hc, ih hcs]

theorem splitSlash_append (a b : List Char) :
    splitSlash (a ++ '/' :: b) = splitSlash a ++ splitSlash b := by
  induction a with
  | nil =>
    rw [List.nil_append, splitSlash_cons, if_pos rfl]
    rfl
  | cons c cs ih =>
    rw [List.cons_append, splitSlash_cons, splitSlash_cons]
    by_cases hc : c = '/'
    · rw [if_pos hc, if_pos hc, ih]
      rfl
    · rw [if_neg hc, if_neg hc, ih]
      rcases hsp : splitSlash cs with _ | ⟨s, rest⟩
      · exact absurd hsp (splitSlash_ne_nil cs)
      · simp only [List.cons_append]

theorem foldl_normStep_good {l : List (List Char)} (hl : ∀ s ∈ l, GoodSeg s) :
    ∀ acc, l.foldl normStep acc = acc ++ l := by
  induction l with
  | nil => intro acc; simp
  | cons s rest ih =>
    intro acc
    have hs := hl s (List.mem_cons_self s rest)
    have hstep : normStep acc s = acc ++ [s] := by
      unfold normStep
      rw [if_neg hs.1, if_neg hs.2.1, if_neg hs.2.2.1]
    rw [List.foldl_cons, hstep, ih (fun t ht => hl t (List.mem_cons_of_mem s ht))]
    simp

theorem normSegs_good {l : List (List Char)} (hl : ∀ s ∈ l, GoodSeg s) :
    normSegs l = l := by
  unfold normSegs
  rw [foldl_normStep_good hl]
  simp

theorem normSegs_cons_nil (l : List (List Char)) :
    normSegs ([] :: l) = normSegs l := rfl

theorem splitSlash_renderAbs_aux {dsegs : List (List Char)}
    (h : ∀ s ∈ dsegs, '/' ∉ s) :
    ∀ init, splitSlash (dsegs.foldl (fun acc s => acc ++ '/' :: s) init)
      = splitSlash init ++ dsegs := by
  induction dsegs with
  | nil => intro init; simp
  | cons s rest ih =>
    intro init
    rw [List.foldl_cons, ih (fun t ht => h t (List.mem_cons_of_mem s ht)),
      splitSlash_append, splitSlash_no_slash (h s (List.mem_cons_self s rest))]
    simp

theorem splitSlash_renderAbs {dsegs : List (List Char)} (hne : dsegs ≠ [])
    (h : ∀ s ∈ dsegs, '/' ∉ s) :
    splitSlash (renderAbs dsegs) = [] :: dsegs := by
  unfold renderAbs
  rw [if_neg hne, splitSlash_renderAbs_aux h]
  rfl

theorem renderAbs_concat {dsegs : List (List Char)} (hne : dsegs ≠ []) (f : List Char) :
    renderAbs (dsegs ++ [f]) = renderAbs dsegs ++ '/' :: f := by
  unfold renderAbs
  rw [if_neg (by simp), if_neg hne, List.foldl_append]
  rfl

theorem listStartsWith_append (p t : List Char) :
    listStartsWith p (p ++ t) = true := by
  induction p with
  | nil => rfl
  | cons c cs ih => simpa [listStartsWith] using ih

theorem listStartsWith_slash (x t : List Char) :
    listStartsWith (x ++ ['/']) (x ++ '/' :: t) = true := by
  have h : x ++ '/' :: t = (x ++ ['/']) ++ t := by simp
  rw [h]
  exact listStartsWith_append _ _

/-- Core fact: joining a nonempty, slash-free, non-dot filename under a
well-formed absolute image directory succeeds and lands strictly inside it. -/
theorem joinImagePath_good_filename {dsegs : List (List Char)} {fname : List Char}
    (hne : dsegs ≠ []) (hgood : ∀ s ∈ dsegs, GoodSeg s)
    (hf : GoodSeg fname) :
    joinImagePath (renderAbs dsegs) fname = .ok (renderAbs dsegs ++ '/' :: fname) := by
  have hslash : ∀ s ∈ dsegs, '/' ∉ s := fun s hs => (hgood s hs).2.2.2
  have hjoin : osJoin (renderAbs dsegs) fname = renderAbs dsegs ++ '/' :: fname := by
    unfold osJoin
    rcases fname with _ | ⟨c, cs⟩
    · exact absurd rfl hf.1
    · have : ¬ c = '/' := fun hc => hf.2.2.2 (hc ▸ List.mem_cons_self c cs)
      simp [this]
  have hdirAbs : absNorm (renderAbs dsegs) = renderAbs dsegs := by
    unfold absNorm
    rw [splitSlash_renderAbs hne hslash, normSegs_cons_nil, normSegs_good hgood]
  have hpath : absNorm (osJoin (renderAbs dsegs) fname) = renderAbs dsegs ++ '/' :: fname := by
    rw [hjoin]
    unfold absNorm
    rw [splitSlash_append, splitSlash_renderAbs hne hslash, splitSlash_no_slash hf.2.2.2,
      show ([] :: dsegs) ++ [fname] = [] :: (dsegs ++ [fname]) from rfl, normSegs_cons_nil,
      normSegs_good (fun s hs => by
        rcases List.mem_append.mp hs with h | h
        · exact hgood s h
        · rw [List.mem_singleton.mp h]; exact hf),
      renderAbs_concat hne fname]
  unfold joinImagePath
  rw [hdirAbs, hpath, listStartsWith_slash]
  rfl

theorem append_cons_ne_self (l : List Char) (c : Char) (t : List Char) :
    l ++ c :: t ≠ l := by
  intro h
  have := congrArg List.length h
  simp at this

/-- The filename assembled by the cache-path builders is a good segment
(provided any leading literal consists of safe characters). -/
theorem builder_filename_good (lead : List Char) (userid date : List Char)
    (hlead : ∀ c ∈ lead, safeChar c = true) :
    GoodSeg (lead ++ (sanitizePathToken userid ++ ('-' :: (sanitizePathToken date ++ ".png".data)))) := by
  obtain ⟨hu_ne, hu_safe⟩ := sanitizePathToken_safe userid
  obtain ⟨hd_ne, hd_safe⟩ := sanitizePathToken_safe date
  have hcases : ∀ c ∈ lead ++ (sanitizePathToken userid ++
      ('-' :: (sanitizePathToken date ++ ".png".data))),
      safeChar c = true ∨ c = '-' ∨ c ∈ ".png".data := by
    intro c hc
    rcases List.mem_append.mp hc with h | h
    · exact Or.inl (hlead c h)
    rcases List.mem_append.mp h with h | h
    · exact Or.inl (hu_safe c h)
    rcases List.mem_cons.mp h with h | h
    · exact Or.inr (Or.inl h)
    rcases List.mem_append.mp h with h | h
    · exact Or.inl (hd_safe c h)
    · exact Or.inr (Or.inr h)
  have hnoslash : '/' ∉ lead ++ (sanitizePathToken userid ++
      ('-' :: (sanitizePathToken date ++ ".png".data))) := by
    intro hm
    rcases hcases '/' hm with h | h | h
    · exact safeChar_ne_slash h rfl
    · exact absurd h (by decide)
    · exact absurd h (by decide)
  have hfirst : ∃ c cs, lead ++ (sanitizePathToken userid ++
      ('-' :: (sanitizePathToken date ++ ".png".data))) = c :: cs ∧ c ≠ '.' := by
    rcases hl : lead with _ | ⟨c, cs⟩
    · rcases hsu : sanitizePathToken userid with _ | ⟨c, cs⟩
      · exact absurd hsu hu_ne
      · refine ⟨c, cs ++ ('-' :: (sanitizePathToken date ++ ".png".data)), by simp [hsu], ?_⟩
        exact safeChar_ne_dot (hu_safe c (by rw [hsu]; exact List.mem_cons_self c cs))
    · refine ⟨c, cs ++ (sanitizePathToken userid ++
        ('-' :: (sanitizePathToken date ++ ".png".data))), by simp, ?_⟩
      exact safeChar_ne_dot (hlead c (by rw [hl]; exact List.mem_cons_self c cs))
  obtain ⟨c, cs, heq, hcdot⟩ := hfirst
  refine ⟨by rw [heq]; simp, ?_, ?_, hnoslash⟩
  · rw [heq]; intro h; exact hcdot (by injection h)
  · rw [heq]; intro h; exact hcdot (by injection h)

/-- Claim C1: both cache-path builders sanitize the userid and date tokens and
return a path strictly inside the image directory for every input, and
_join_image_path never returns a path that does not resolve inside the image
directory (it raises instead, the error case here). The image directory is any
absolute normalized directory, given by its nonempty list of well-formed
segments. -/
theorem cache_paths_inside (dsegs : List (List Char)) (userid date : List Char)
    (hne : dsegs ≠ []) (hgood : ∀ s ∈ dsegs, GoodSeg s) :
    (∀ filename p, joinImagePath (renderAbs dsegs) filename = .ok p →
      listStartsWith (renderAbs dsegs ++ ['/']) p = true)
    ∧ (∃ p, buildSignCachePath (renderAbs dsegs) userid date = .ok p
        ∧ listStartsWith (renderAbs dsegs ++ ['/']) p = true
        ∧ p ≠ renderAbs dsegs)
    ∧ (∃ p, buildBackgroundPath (renderAbs dsegs) userid date = .ok p
        ∧ listStartsWith (renderAbs dsegs ++ ['/']) p = true
        ∧ p ≠ renderAbs dsegs) := by
  have hdirAbs : absNorm (renderAbs dsegs) = renderAbs dsegs := by
    unfold absNorm
    rw [splitSlash_renderAbs hne (fun s hs => (hgood s hs).2.2.2), normSegs_cons_nil,
      normSegs_good hgood]
  refine ⟨?_, ?_, ?_⟩
  · intro filename p hp
    unfold joinImagePath at hp
    split at hp
    · rename_i hstart
      rw [hdirAbs] at hstart
      cases hp
      exact hstart
    · exact absurd hp (by simp)
  · have hfn := builder_filename_good [] userid date (by simp)
    rw [List.nil_append] at hfn
    refine ⟨renderAbs dsegs ++ '/' :: (sanitizePathToken userid ++
      ('-' :: (sanitizePathToken date ++ ".png".data))), ?_, ?_, ?_⟩
    · unfold buildSignCachePath
      exact joinImagePath_good_filename hne hgood hfn
    · exact listStartsWith_slash _ _
    · exact append_cons_ne_self _ _ _
  · have hfn := builder_filename_good "background-".data userid date (by decide)
    refine ⟨renderAbs dsegs ++ '/' :: ("background-".data ++ (sanitizePathToken userid ++
      ('-' :: (sanitizePathToken date ++ ".png".data)))), ?_, ?_, ?_⟩
    · unfold buildBackgroundPath
      exact joinImagePath_good_filename hne hgood hfn
    · exact listStartsWith_slash _ _
    · exact append_cons_ne_self _ _ _

/-- Witness for C1 at the directory /app/images: a concrete filename joins to a
path that starts inside the image directory, and the sanitizer defuses a
traversal-shaped userid. -/
theorem cache_paths_inside_witness :
    listStartsWith (renderAbs ["app".data, "images".data] ++ ['/'])
      "/app/images/etc-2024-01-01.png".data = true
    ∧ sanitizePathToken "../../etc".data = "etc".data :=
  ⟨(cache_paths_inside ["app".data, "images".data] "../../etc".data "2024-01-01".data
      (by decide) (by decide)).1 "etc-2024-01-01.png".data
      "/app/images/etc-2024-01-01.png".data (by rfl),
   by decide⟩

/-! ## Top-level draw error handling (ImageGen._draw / _draw_sync, src/draw.py:737-756, 936-944)

The pipeline's failure points are the background check (raises before the
try/finally of `_draw_sync`), decoding the background bytes (`Image.open`
raises on undecodable data), and avatar decoding, which is caught locally and
replaced by a placeholder. All remaining geometry/compositing steps are total
and are folded into the abstract `renderCard`. `_draw` wraps the whole of
`_draw_sync` in `try/except Exception`, returning `None` on error. -/

structure DrawEnv (Img : Type) where
  decodeBg : List Nat → Option Img
  decodeAvatar : List Nat → Option Img
  placeholderAvatar : Img
  renderCard : Img → Img → List Nat

/-- Avatar selection of src/draw.py:936-944: parse `self.avatar_data` when it is
truthy; on absence, emptiness or parse failure use the solid-colour placeholder. -/
def selectAvatar {Img : Type} (e : DrawEnv Img) (avatarData : Option (List Nat)) : Img :=
  match avatarData with
  | none => e.placeholderAvatar
  | some b =>
    if b = [] then e.placeholderAvatar
    else (e.decodeAvatar b).getD e.placeholderAvatar

/-- Error skeleton of `ImageGen._draw_sync` (src/draw.py:748-1122): raises when
`self.bg_data` is falsy, raises when the background bytes do not decode,
otherwise renders and returns PNG bytes. -/
def drawSync {Img : Type} (e : DrawEnv Img) (bgData avatarData : Option (List Nat)) :
    Except String (List Nat) :=
  match bgData with
  | none => .error "未找到背景图片！"
  | some b =>
    if b = [] then .error "未找到背景图片！"
    else
      match e.decodeBg b with
      | none => .error "无法解析背景图片"
      | some bg => .ok (e.renderCard bg (selectAvatar e avatarData))

/-- `ImageGen._draw` (src/draw.py:737-746): run `_draw_sync`, catch every
exception, log it and return `None`. -/
def drawResult {Img : Type} (e : DrawEnv Img) (bgData avatarData : Option (List Nat)) :
    Option (List Nat) :=
  match drawSync e bgData avatarData with
  | .ok bytes => some bytes
  | .error _ => none

/-- Claim C2: `_draw` returns None instead of propagating any exception raised
by `_draw_sync`; missing background bytes make the pipeline fail and the caller
receives None with no exception; absent or unparseable avatar bytes do not cause
failure — the placeholder avatar is substituted and rendering proceeds to a
successful result for every avatar input. -/
theorem draw_error_handling {Img : Type} (e : DrawEnv Img)
    (bgData avatarData : Option (List Nat)) :
    (∀ msg, drawSync e bgData avatarData = .error msg →
      drawResult e bgData avatarData = none)
    ∧ (bgData = none → drawResult e bgData avatarData = none)
    ∧ (∀ b img, bgData = some b → b ≠ [] → e.decodeBg b = some img →
        drawResult e bgData avatarData = some (e.renderCard img (selectAvatar e avatarData)))
    ∧ selectAvatar e none = e.placeholderAvatar
    ∧ (∀ ab, e.decodeAvatar ab = none → selectAvatar e (some ab) = e.placeholderAvatar) := by
  refine ⟨?_, ?_, ?_, rfl, ?_⟩
  · intro msg hmsg
    unfold drawResult
    rw [hmsg]
  · intro hbg
    subst hbg
    rfl
  · intro b img hb hbne hdec
    subst hb
    simp only [drawResult, drawSync]
    rw [if_neg hbne, hdec]
  · intro ab hab
    simp only [selectAvatar]
    rw [hab]
    split <;> rfl

/-- A concrete environment for the C2 witness: one decodable background. -/
def exampleDrawEnv : DrawEnv Nat where
  decodeBg := fun b => if b = [1] then some 7 else none
  decodeAvatar := fun _ => none
  placeholderAvatar := 0
  renderCard := fun bg av => [bg, av]

/-- Witness for C2: with background bytes [1] and no avatar, rendering succeeds
with the placeholder; with no background it returns none. -/
theorem draw_error_handling_witness :
    drawResult exampleDrawEnv (some [1]) none = some [7, 0]
    ∧ drawResult exampleDrawEnv none (some [5]) = none
    ∧ selectAvatar exampleDrawEnv (some [5]) = 0 :=
  ⟨by
    have h := (draw_error_handling exampleDrawEnv (some [1]) none).2.2.1 [1] 7 rfl
      (by decide) (by decide)
    simpa [exampleDrawEnv, selectAvatar] using h,
   (draw_error_handling exampleDrawEnv none (some [5])).2.1 rfl,
   by
    have h := (draw_error_handling exampleDrawEnv (some [5]) none).2.2.2.2 [5] rfl
    simpa using h⟩

/-! ## Cluster classification and font choice (src/draw.py:230-287, 383-399)

`str.isdigit`, `unicodedata.category` and `unicodedata.east_asian_width` are
ambient Unicode tables, abstracted in `UnicodeEnv`. -/

structure UnicodeEnv where
  /-- `unicodedata.combining c != 0`. -/
  combining : Nat → Bool
  /-- `str.isdigit` of the single character (true for ASCII and other digits). -/
  isDigit : Nat → Bool
  /-- `unicodedata.category(c)` starts with "P" or "S". -/
  catPunctSym : Nat → Bool
  /-- `str.isspace` of the single character. -/
  isSpaceCp : Nat → Bool
  /-- `unicodedata.east_asian_width(c)` is "W", "F" or "A". -/
  wideEastAsian : Nat → Bool

/-- Transcription of `ImageGen._contains_cjk` (src/draw.py:230-240). -/
def containsCjk (text : List Nat) : Bool :=
  text.any fun c =>
    (0x4E00 ≤ c && c ≤ 0x9FFF) || (0x3400 ≤ c && c ≤ 0x4DBF) || (0xF900 ≤ c && c ≤ 0xFAFF)

/-- Transcription of `ImageGen._contains_emoji` (src/draw.py:242-252). -/
def containsEmoji (text : List Nat) : Bool :=
  text.any fun c =>
    (0x1F000 ≤ c && c ≤ 0x1FAFF) || (0x2600 ≤ c && c ≤ 0x27BF) || (0x2300 ≤ c && c ≤ 0x23FF)

/-- Transcription of `ImageGen._contains_ascii_alnum` (src/draw.py:254-259). -/
def containsAsciiAlnum (u : UnicodeEnv) (text : List Nat) : Bool :=
  text.any fun c => (0x41 ≤ c && c ≤ 0x5A) || (0x61 ≤ c && c ≤ 0x7A) || u.isDigit c

/-- Transcription of `ImageGen._is_ascii_punct_cluster` (src/draw.py:261-273):
nonempty, every code point ≤ 0x7F and punctuation/symbol/whitespace (the loop's
`has_ascii` flag is true exactly when the cluster is nonempty). -/
def isAsciiPunctCluster (u : UnicodeEnv) (text : List Nat) : Bool :=
  !text.isEmpty && text.all fun c => c ≤ 0x7F && (u.catPunctSym c || u.isSpaceCp c)

/-- Transcription of `ImageGen._is_fullwidth_punct_cluster` (src/draw.py:275-287). -/
def isFullwidthPunctCluster (u : UnicodeEnv) (text : List Nat) : Bool :=
  !text.isEmpty && text.all fun c => u.catPunctSym c && u.wideEastAsian c

/-- The per-instance font path lists (`_get_font_paths`) and font loading
(`_get_font`, returning the PIL default on failure), abstracted: `getFont`
models `self._get_font(path, size)` and `defaultFont` models
`ImageFont.load_default()`. -/
structure FontEnv (F : Type) where
  emojiPaths : List String
  cjkPaths : List String
  latinPaths : List String
  genericPaths : List String
  getFont : String → Nat → F
  defaultFont : F

/-- Transcription of `ImageGen._choose_font` (src/draw.py:383-399). -/
def chooseFont {F : Type} (u : UnicodeEnv) (fe : FontEnv F) (cluster : List Nat) (size : Nat) : F :=
  if containsEmoji cluster && !fe.emojiPaths.isEmpty then
    fe.getFont (fe.emojiPaths.headD "") size
  else if containsCjk cluster && !fe.cjkPaths.isEmpty then
    fe.getFont (fe.cjkPaths.headD "") size
  else if containsAsciiAlnum u cluster && !fe.latinPaths.isEmpty then
    fe.getFont (fe.latinPaths.headD "") size
  else if isFullwidthPunctCluster u cluster && !fe.cjkPaths.isEmpty then
    fe.getFont (fe.cjkPaths.headD "") size
  else if isAsciiPunctCluster u cluster && !fe.latinPaths.isEmpty then
    fe.getFont (fe.latinPaths.headD "") size
  else if !fe.latinPaths.isEmpty then
    fe.getFont (fe.latinPaths.headD "") size
  else if !fe.genericPaths.isEmpty then
    fe.getFont (fe.genericPaths.headD "") size
  else fe.defaultFont

/-- First-match-wins over a priority list of (predicate hit, path list) rules;
a rule only fires when its list is nonempty. When no rule fires: the Latin
list, else the Generic list, else the built-in default font. -/
def firstHitFont {F : Type} (fe : FontEnv F) (size : Nat) :
    List (Bool × List String) → F
  | [] =>
    if !fe.latinPaths.isEmpty then fe.getFont (fe.latinPaths.headD "") size
    else if !fe.genericPaths.isEmpty then fe.getFont (fe.genericPaths.headD "") size
    else fe.defaultFont
  | (hit, paths) :: rest =>
    if hit && !paths.isEmpty then fe.getFont (paths.headD "") size
    else firstHitFont fe size rest

/-- The choice policy as the spec words it: first match wins down the priority
list emoji→Emoji, CJK→CJK, ASCII-alnum→Latin, fullwidth-punct→CJK,
ASCII-punct→Latin; otherwise the Latin list, else the Generic list, else the
built-in default font. -/
def chooseFontPolicy {F : Type} (u : UnicodeEnv) (fe : FontEnv F)
    (cluster : List Nat) (size : Nat) : F :=
  firstHitFont fe size
    [(containsEmoji cluster, fe.emojiPaths),
     (containsCjk cluster, fe.cjkPaths),
     (containsAsciiAlnum u cluster, fe.latinPaths),
     (isFullwidthPunctCluster u cluster, fe.cjkPaths),
     (isAsciiPunctCluster u cluster, fe.latinPaths)]

/-- Claim C9: per-cluster font choice follows exactly the first-match-wins
priority emoji→Emoji list, else CJK→CJK list, else ASCII-alnum→Latin list,
else fullwidth-punct→CJK list, else ASCII-punct→Latin list, else the Latin
list, else the Generic list, else the built-in default font. -/
theorem choose_font_first_match {F : Type} (u : UnicodeEnv) (fe : FontEnv F)
    (cluster : List Nat) (size : Nat) :
    chooseFont u fe cluster size = chooseFontPolicy u fe cluster size := by
  simp only [chooseFont, chooseFontPolicy, firstHitFont]

/-! ## Grapheme-cluster splitting (ImageGen._split_text_clusters, src/draw.py:319-346) -/

/-- A code point that joins the open cluster on its own: a combining mark
(`unicodedata.combining(char)` nonzero, modelled by `comb`) or one of
U+200D / U+FE0E / U+FE0F. -/
def joinsCluster (comb : Nat → Bool) (c : Nat) : Bool :=
  comb c || (c == 0x200D) || (c == 0xFE0E) || (c == 0xFE0F)

/-- The glue condition of the loop body: the code point joins on its own, or
the open cluster's last code point is U+200D. -/
def glueCp (comb : Nat → Bool) (lastCp c : Nat) : Bool :=
  joinsCluster comb c || (lastCp == 0x200D)

/-- One iteration of the `_split_text_clusters` loop; the state is the pair
(closed clusters, open cluster). -/
def splitStep (comb : Nat → Bool) (s : List (List Nat) × List Nat) (c : Nat) :
    List (List Nat) × List Nat :=
  if s.2 = [] then (s.1, [c])
  else if glueCp comb (s.2.getLastD 0) c then (s.1, s.2 ++ [c])
  else (s.1 ++ [s.2], [c])

/-- The flush after the loop (`if current: clusters.append(current)`). -/
def splitFlush (s : List (List Nat) × List Nat) : List (List Nat) :=
  if s.2 = [] then s.1 else s.1 ++ [s.2]

/-- Transcription of `ImageGen._split_text_clusters` (src/draw.py:319-346); the
early return for empty input coincides with running the loop on no characters. -/
def splitTextClusters (comb : Nat → Bool) (text : List Nat) : List (List Nat) :=
  splitFlush (text.foldl (splitStep comb) ([], []))

theorem headD_append_left {l m : List Nat} (h : l ≠ []) (d : Nat) :
    (l ++ m).headD d = l.headD d := by
  cases l with
  | nil => exact absurd rfl h
  | cons a t => rfl

theorem head?_append_left {l m : List Nat} (h : l ≠ []) :
    (l ++ m).head? = l.head? := by
  cases l with
  | nil => exact absurd rfl h
  | cons a t => rfl

theorem getLast?_of_ne_nil {α : Type} {l : List α} (h : l ≠ []) (d : α) :
    l.getLast? = some (l.getLastD d) := by
  obtain ⟨l', a, rfl⟩ := l.eq_nil_or_concat.resolve_left h
  simp only [List.concat_eq_append]
  rw [List.getLast?_concat, List.getLastD_concat]

theorem splitStep_flatten (comb : Nat → Bool) (s : List (List Nat) × List Nat) (c : Nat) :
    (splitStep comb s c).1.flatten ++ (splitStep comb s c).2 = s.1.flatten ++ s.2 ++ [c] := by
  unfold splitStep
  split_ifs with h1 h2 <;> simp [h1]

theorem foldl_splitStep_flatten (comb : Nat → Bool) (l : List Nat) :
    ∀ s, (l.foldl (splitStep comb) s).1.flatten ++ (l.foldl (splitStep comb) s).2
      = s.1.flatten ++ s.2 ++ l := by
  induction l with
  | nil => intro s; simp
  | cons c cs ih =>
    intro s
    rw [List.foldl_cons, ih, splitStep_flatten]
    simp

theorem splitFlush_flatten (s : List (List Nat) × List Nat) :
    (splitFlush s).flatten = s.1.flatten ++ s.2 := by
  unfold splitFlush
  split_ifs with h <;> simp [h]

/-- Whether a cluster may legally start a new cluster: it does not begin with a
code point that would have glued to the previous cluster on its own. -/
def StartOK (comb : Nat → Bool) (cl : List Nat) : Prop :=
  ∀ c, cl.head? = some c → joinsCluster comb c = false

/-- Every adjacent pair inside the cluster satisfied the glue condition when the
cluster was assembled. -/
def GlueChain (comb : Nat → Bool) (cl : List Nat) : Prop :=
  List.Chain' (fun x y => glueCp comb x y = true) cl

/-- Between adjacent produced clusters the glue condition failed (that is why a
new cluster started). -/
def BreaksOK (comb : Nat → Bool) (cls : List (List Nat)) : Prop :=
  List.Chain' (fun a b => glueCp comb (a.getLastD 0) (b.headD 0) = false) cls

/-- Loop invariant of `_split_text_clusters`. -/
def StateOK (comb : Nat → Bool) (s : List (List Nat) × List Nat) : Prop :=
  (s.2 = [] → s.1 = [])
  ∧ (∀ cl ∈ s.1, cl ≠ [])
  ∧ (∀ cl ∈ s.1, GlueChain comb cl)
  ∧ GlueChain comb s.2
  ∧ BreaksOK comb (splitFlush s)
  ∧ (∀ cl ∈ (splitFlush s).drop 1, StartOK comb cl)

theorem stateOK_init (comb : Nat → Bool) : StateOK comb ([], []) := by
  refine ⟨fun _ => rfl, by simp, by simp, List.chain'_nil, ?_, by simp [splitFlush]⟩
  show List.Chain' _ (splitFlush ([], []))
  simp only [splitFlush, if_pos rfl]
  exact List.chain'_nil

theorem stateOK_step {comb : Nat → Bool} {s : List (List Nat) × List Nat}
    (h : StateOK comb s) (c : Nat) : StateOK comb (splitStep comb s c) := by
  obtain ⟨h1, h2, h3, h4, h5, h6⟩ := h
  unfold splitStep
  split_ifs with hcur hglue
  · -- the open cluster is empty: this is the very first character
    have hs1 : s.1 = [] := h1 hcur
    rw [hs1]
    refine ⟨by simp, by simp, by simp, List.chain'_singleton c, ?_, ?_⟩
    · show List.Chain' _ (splitFlush ([], [c]))
      simp only [splitFlush, if_neg (by simp : ¬ ([c] = ([] : List Nat))), List.nil_append]
      exact List.chain'_singleton _
    · simp only [splitFlush, if_neg (by simp : ¬ ([c] = ([] : List Nat))), List.nil_append]
      simp [StartOK]
  · -- glue: append to the open cluster
    have hflush : splitFlush s = s.1 ++ [s.2] := by
      simp only [splitFlush, if_neg hcur]
    have hflush' : splitFlush (s.1, s.2 ++ [c]) = s.1 ++ [s.2 ++ [c]] := by
      simp only [splitFlush, if_neg (by simp : ¬ (s.2 ++ [c] = []))]
    refine ⟨by simp, h2, h3, ?_, ?_, ?_⟩
    · refine List.chain'_append.mpr ⟨h4, List.chain'_singleton c, ?_⟩
      intro x hx y hy
      rw [getLast?_of_ne_nil hcur 0] at hx
      cases hx
      cases hy
      exact hglue
    · rw [hflush']
      rw [hflush] at h5
      obtain ⟨hb1, _, hb3⟩ := List.chain'_append.mp h5
      refine List.chain'_append.mpr ⟨hb1, List.chain'_singleton _, ?_⟩
      intro x hx y hy
      cases hy
      have := hb3 x hx s.2 rfl
      rwa [headD_append_left hcur]
    · rw [hflush']
      rw [hflush] at h6
      intro cl hcl
      rcases hs1 : s.1 with _ | ⟨d, ds⟩
      · rw [hs1] at hcl; simp at hcl
      · rw [hs1] at hcl h6
        simp only [List.cons_append, List.drop_succ_cons, List.drop_zero] at hcl h6
        rcases List.mem_append.mp hcl with hm | hm
        · exact h6 cl (List.mem_append.mpr (Or.inl hm))
        · have hstart := h6 s.2 (List.mem_append.mpr (Or.inr (List.mem_singleton.mpr rfl)))
          rw [List.mem_singleton.mp hm]
          intro x hx
          rw [head?_append_left hcur] at hx
          exact hstart x hx
  · -- no glue: close the open cluster and start a new one
    have hflush : splitFlush s = s.1 ++ [s.2] := by
      simp only [splitFlush, if_neg hcur]
    have hflush' : splitFlush (s.1 ++ [s.2], [c]) = (s.1 ++ [s.2]) ++ [[c]] := by
      simp only [splitFlush, if_neg (by simp : ¬ (([c] : List Nat) = []))]
    have hstart : joinsCluster comb c = false := by
      have := hglue
      unfold glueCp at this
      simp only [Bool.or_eq_true, not_or, Bool.not_eq_true] at this
      exact this.1
    refine ⟨by simp, ?_, ?_, List.chain'_singleton c, ?_, ?_⟩
    · intro cl hcl
      rcases List.mem_append.mp hcl with hm | hm
      · exact h2 cl hm
      · rw [List.mem_singleton.mp hm]; exact hcur
    · intro cl hcl
      rcases List.mem_append.mp hcl with hm | hm
      · exact h3 cl hm
      · rw [List.mem_singleton.mp hm]; exact h4
    · rw [hflush']
      rw [hflush] at h5
      refine List.chain'_append.mpr ⟨h5, List.chain'_singleton _, ?_⟩
      intro x hx y hy
      cases hy
      rw [List.getLast?_concat] at hx
      cases hx
      simpa using hglue
    · rw [hflush']
      rw [hflush] at h6
      intro cl hcl
      rw [List.drop_append_of_le_length (by simp)] at hcl
      rcases List.mem_append.mp hcl with hm | hm
      · exact h6 cl hm
      · rw [List.mem_singleton.mp hm]
        intro x hx
        cases hx
        exact hstart

theorem stateOK_foldl (comb : Nat → Bool) (l : List Nat) :
    ∀ s, StateOK comb s → StateOK comb (l.foldl (splitStep comb) s) := by
  induction l with
  | nil => intro s h; exact h
  | cons c cs ih =>
    intro s h
    rw [List.foldl_cons]
    exact ih _ (stateOK_step h c)

theorem split_stateOK (comb : Nat → Bool) (text : List Nat) :
    StateOK comb (text.foldl (splitStep comb) ([], [])) :=
  stateOK_foldl comb text ([], []) (stateOK_init comb)

theorem splitFlush_mem {comb : Nat → Bool} {s : List (List Nat) × List Nat}
    (h : StateOK comb s) : ∀ cl ∈ splitFlush s, cl ≠ [] ∧ GlueChain comb cl := by
  intro cl hcl
  obtain ⟨_, h2, h3, h4, _, _⟩ := h
  unfold splitFlush at hcl
  split_ifs at hcl with hc
  · exact ⟨h2 cl hcl, h3 cl hcl⟩
  · rcases List.mem_append.mp hcl with hm | hm
    · exact ⟨h2 cl hm, h3 cl hm⟩
    · rw [List.mem_singleton.mp hm]; exact ⟨hc, h4⟩

theorem split_clusters_ok (comb : Nat → Bool) (text : List Nat) :
    ∀ cl ∈ splitTextClusters comb text, cl ≠ [] ∧ GlueChain comb cl :=
  splitFlush_mem (split_stateOK comb text)

theorem split_breaksOK (comb : Nat → Bool) (text : List Nat) :
    BreaksOK comb (splitTextClusters comb text) :=
  (split_stateOK comb text).2.2.2.2.1

theorem split_flatten (comb : Nat → Bool) (text : List Nat) :
    (splitTextClusters comb text).flatten = text := by
  unfold splitTextClusters
  rw [splitFlush_flatten, foldl_splitStep_flatten]
  simp

/-- Claim C5: concatenating the clusters produced by _split_text_clusters
reproduces the input exactly, and no cluster other than the first begins with a
combining mark or with U+200D / U+FE0E / U+FE0F. -/
theorem split_clusters_spec (comb : Nat → Bool) (text : List Nat) :
    (splitTextClusters comb text).flatten = text
    ∧ ∀ cl ∈ (splitTextClusters comb text).drop 1, ∀ c, cl.head? = some c →
        comb c = false ∧ c ≠ 0x200D ∧ c ≠ 0xFE0E ∧ c ≠ 0xFE0F := by
  refine ⟨split_flatten comb text, ?_⟩
  intro cl hcl c hc
  have hstart := (split_stateOK comb text).2.2.2.2.2 cl hcl c hc
  unfold joinsCluster at hstart
  simp only [Bool.or_eq_false_iff, beq_eq_false_iff_ne, ne_eq] at hstart
  exact ⟨hstart.1.1.1, hstart.1.1.2, hstart.1.2, hstart.2⟩

/-- A concrete combining table (only U+0301) for the C5 witness. -/
def exampleComb (c : Nat) : Bool := c == 0x301

/-- Witness for C5 on "a◌́b" (a, combining acute, b): two clusters, whose
concatenation is the input, and the second cluster starts with 'b'. -/
theorem split_clusters_spec_witness :
    splitTextClusters exampleComb [97, 769, 98] = [[97, 769], [98]]
    ∧ (splitTextClusters exampleComb [97, 769, 98]).flatten = [97, 769, 98]
    ∧ (exampleComb 98 = false ∧ 98 ≠ 0x200D ∧ 98 ≠ 0xFE0E ∧ 98 ≠ 0xFE0F) :=
  ⟨by decide,
   (split_clusters_spec exampleComb [97, 769, 98]).1,
   (split_clusters_spec exampleComb [97, 769, 98]).2 [98] (by decide) 98 rfl⟩

theorem splitStep_nil_case {comb : Nat → Bool} {s : List (List Nat) × List Nat} {c : Nat}
    (h : s.2 = []) : splitStep comb s c = (s.1, [c]) := by
  unfold splitStep
  rw [if_pos h]

theorem splitStep_glue_case {comb : Nat → Bool} {s : List (List Nat) × List Nat} {c : Nat}
    (h1 : s.2 ≠ []) (h2 : glueCp comb (s.2.getLastD 0) c = true) :
    splitStep comb s c = (s.1, s.2 ++ [c]) := by
  unfold splitStep
  rw [if_neg h1, if_pos h2]

theorem splitStep_break_case {comb : Nat → Bool} {s : List (List Nat) × List Nat} {c : Nat}
    (h1 : s.2 ≠ []) (h2 : glueCp comb (s.2.getLastD 0) c = false) :
    splitStep comb s c = (s.1 ++ [s.2], [c]) := by
  unfold splitStep
  rw [if_neg h1, if_neg (by rw [h2]; simp)]

theorem foldl_splitStep_shift (comb : Nat → Bool) (l : List Nat) :
    ∀ cl cur, l.foldl (splitStep comb) (cl, cur)
      = (cl ++ (l.foldl (splitStep comb) ([], cur)).1,
         (l.foldl (splitStep comb) ([], cur)).2) := by
  induction l with
  | nil => intro cl cur; simp
  | cons c cs ih =>
    intro cl cur
    rw [List.foldl_cons, List.foldl_cons]
    by_cases hcur : cur = []
    · have e1 : splitStep comb (cl, cur) c = (cl, [c]) := by
        unfold splitStep; rw [if_pos hcur]
      have e2 : splitStep comb ([], cur) c = ([], [c]) := by
        unfold splitStep; rw [if_pos hcur]
      rw [e1, e2]
      exact ih cl [c]
    · by_cases hglue : glueCp comb (cur.getLastD 0) c = true
      · have e1 : splitStep comb (cl, cur) c = (cl, cur ++ [c]) := by
          unfold splitStep; rw [if_neg hcur, if_pos hglue]
        have e2 : splitStep comb ([], cur) c = ([], cur ++ [c]) := by
          unfold splitStep; rw [if_neg hcur, if_pos hglue]
        rw [e1, e2]
        exact ih cl (cur ++ [c])
      · have e1 : splitStep comb (cl, cur) c = (cl ++ [cur], [c]) := by
          unfold splitStep; rw [if_neg hcur, if_neg hglue]
        have e2 : splitStep comb ([], cur) c = ([] ++ [cur], [c]) := by
          unfold splitStep; rw [if_neg hcur, if_neg hglue]
        rw [e1, e2, List.nil_append, ih (cl ++ [cur]) [c], ih [cur] [c]]
        simp

theorem splitStep_snd_ne (comb : Nat → Bool) (s : List (List Nat) × List Nat) (c : Nat) :
    (splitStep comb s c).2 ≠ [] := by
  unfold splitStep
  split_ifs <;> simp

theorem splitStep_snd_getLastD (comb : Nat → Bool) (s : List (List Nat) × List Nat) (c : Nat) :
    ((splitStep comb s c).2).getLastD 0 = c := by
  unfold splitStep
  split_ifs <;> simp [List.getLastD_concat]

theorem foldl_splitStep_snd_ne (comb : Nat → Bool) {l : List Nat} (hl : l ≠ [])
    (s : List (List Nat) × List Nat) : (l.foldl (splitStep comb) s).2 ≠ [] := by
  obtain ⟨l', c, rfl⟩ := l.eq_nil_or_concat.resolve_left hl
  simp only [List.concat_eq_append]
  rw [List.foldl_append]
  simpa using splitStep_snd_ne comb _ c

theorem foldl_splitStep_snd_getLastD (comb : Nat → Bool) {l : List Nat} (hl : l ≠ [])
    (s : List (List Nat) × List Nat) :
    ((l.foldl (splitStep comb) s).2).getLastD 0 = l.getLastD 0 := by
  obtain ⟨l', c, rfl⟩ := l.eq_nil_or_concat.resolve_left hl
  simp only [List.concat_eq_append]
  rw [List.foldl_append, List.getLastD_concat]
  simpa using splitStep_snd_getLastD comb _ c

theorem splitFlush_shift (p q : List (List Nat)) (r : List Nat) :
    splitFlush (p ++ q, r) = p ++ splitFlush (q, r) := by
  unfold splitFlush
  split_ifs <;> simp

/-- Splitting distributes over concatenation at a genuine cluster boundary:
the left part is nonempty and does not end in U+200D, and the right part starts
with a code point that does not join on its own. -/
theorem split_append (comb : Nat → Bool) {a b : List Nat} (ha : a ≠ [])
    (hlast : a.getLastD 0 ≠ 0x200D) (hb : b ≠ [])
    (hhead : joinsCluster comb (b.headD 0) = false) :
    splitTextClusters comb (a ++ b) = splitTextClusters comb a ++ splitTextClusters comb b := by
  obtain ⟨c, b', rfl⟩ := List.exists_cons_of_ne_nil hb
  have hc : joinsCluster comb c = false := hhead
  unfold splitTextClusters
  rw [List.foldl_append]
  have h2ne : (a.foldl (splitStep comb) ([], [])).2 ≠ [] :=
    foldl_splitStep_snd_ne comb ha _
  have hlast' : ((a.foldl (splitStep comb) ([], [])).2).getLastD 0 = a.getLastD 0 :=
    foldl_splitStep_snd_getLastD comb ha _
  have hstep : splitStep comb (a.foldl (splitStep comb) ([], [])) c
      = ((a.foldl (splitStep comb) ([], [])).1 ++ [(a.foldl (splitStep comb) ([], [])).2], [c]) :=
    splitStep_break_case h2ne (by
      unfold glueCp
      rw [hlast', hc]
      simp only [Bool.false_or, beq_eq_false_iff_ne, ne_eq]
      exact hlast)
  have hfirst : splitStep comb ([], []) c = ([], [c]) := splitStep_nil_case rfl
  rw [List.foldl_cons, List.foldl_cons, hstep, hfirst]
  rw [foldl_splitStep_shift comb b' _ [c]]
  rw [splitFlush_shift]
  have hfa : splitFlush (a.foldl (splitStep comb) ([], []))
      = (a.foldl (splitStep comb) ([], [])).1 ++ [(a.foldl (splitStep comb) ([], [])).2] := by
    unfold splitFlush
    rw [if_neg h2ne]
  rw [hfa]

theorem foldl_splitStep_glue (comb : Nat → Bool) (rest : List Nat) :
    ∀ cur p, cur ≠ [] → GlueChain comb (cur ++ rest) →
      rest.foldl (splitStep comb) (p, cur) = (p, cur ++ rest) := by
  induction rest with
  | nil => intro cur p _ _; simp
  | cons c rest' ih =>
    intro cur p hcur hch
    have hglue : glueCp comb (cur.getLastD 0) c = true := by
      obtain ⟨_, _, h3⟩ := List.chain'_append.mp hch
      exact h3 _ ((getLast?_of_ne_nil hcur 0).symm ▸ rfl) c rfl
    have hstep : splitStep comb (p, cur) c = (p, cur ++ [c]) := by
      unfold splitStep
      rw [if_neg hcur, if_pos hglue]
    rw [List.foldl_cons, hstep, ih (cur ++ [c]) p (by simp) (by
      rw [List.append_assoc]
      exact hch)]
    simp

/-- A nonempty internally-glued cluster re-splits to itself. -/
theorem split_glue_chain (comb : Nat → Bool) {cl : List Nat} (hne : cl ≠ [])
    (hch : GlueChain comb cl) : splitTextClusters comb cl = [cl] := by
  obtain ⟨c, cs, rfl⟩ := List.exists_cons_of_ne_nil hne
  unfold splitTextClusters
  rw [List.foldl_cons]
  have hfirst : splitStep comb ([], []) c = ([], [c]) := by
    unfold splitStep
    rw [if_pos rfl]
  rw [hfirst, foldl_splitStep_glue comb cs [c] [] (by simp) (by simpa using hch)]
  unfold splitFlush
  rw [if_neg (by simp)]
  simp

/-- Joining a list of well-formed clusters with genuine breaks between them and
re-splitting recovers exactly that list. -/
theorem split_flatten_clusters (comb : Nat → Bool) {cls : List (List Nat)}
    (h1 : ∀ cl ∈ cls, cl ≠ [] ∧ GlueChain comb cl) (h2 : BreaksOK comb cls) :
    splitTextClusters comb cls.flatten = cls := by
  induction cls with
  | nil => rfl
  | cons cl rest ih =>
    have hcl := h1 cl (List.mem_cons_self cl rest)
    rcases hrest : rest with _ | ⟨r0, rest'⟩
    · simp only [List.flatten_cons, List.flatten_nil, List.append_nil]
      exact split_glue_chain comb hcl.1 hcl.2
    · rw [← hrest, List.flatten_cons]
      have hr0 : r0 ≠ [] ∧ GlueChain comb r0 := h1 r0 (by rw [hrest]; simp)
      have hjunction : glueCp comb (cl.getLastD 0) (r0.headD 0) = false := by
        rw [hrest] at h2
        exact (List.chain'_cons.mp h2).1
      have hjoin_ne : rest.flatten ≠ [] := by
        rw [hrest, List.flatten_cons]
        obtain ⟨x, xs, hx⟩ := List.exists_cons_of_ne_nil hr0.1
        rw [hx]
        simp
      have hjoin_head : rest.flatten.headD 0 = r0.headD 0 := by
        rw [hrest, List.flatten_cons, headD_append_left hr0.1]
      have hhead : joinsCluster comb (rest.flatten.headD 0) = false := by
        rw [hjoin_head]
        have := hjunction
        unfold glueCp at this
        exact (Bool.or_eq_false_iff.mp this).1
      have hlast : cl.getLastD 0 ≠ 0x200D := by
        have := hjunction
        unfold glueCp at this
        have h' := (Bool.or_eq_false_iff.mp this).2
        simpa using h'
      rw [split_append comb hcl.1 hlast hjoin_ne hhead,
        split_glue_chain comb hcl.1 hcl.2,
        ih (fun t ht => h1 t (List.mem_cons_of_mem cl ht)) (List.Chain'.tail h2)]
      rfl

/-! ## Run building, measuring and truncation (src/draw.py:401-456)

Font handles are an abstract type `F` with decidable equality (run merging
compares handles with `!=`). `choose` models `self._choose_font(cluster, size)`,
`adv f c` the advance width of code point `c` in font `f` — PIL's
`font.getlength` under basic layout is the sum of per-code-point advances —
and `bboxH f content` the height `bbox[3] - bbox[1]` from `font.getbbox`. -/

section MixedText

variable {F : Type} [DecidableEq F] (comb : Nat → Bool) (choose : List Nat → Nat → F)
  (adv : F → Nat → ℚ) (bboxH : F → List Nat → ℚ)

/-- One iteration of the `_build_text_chunks` loop; the state is the pair
(finished chunks, open chunk). In the source `current_font is None` exactly when
`current_text` is empty, so the open chunk is one optional (text, font) pair. -/
def chunkStep (size : Nat) (s : List (List Nat × F) × Option (List Nat × F))
    (cl : List Nat) : List (List Nat × F) × Option (List Nat × F) :=
  match s.2 with
  | none => (s.1, some (cl, choose cl size))
  | some (t, cf) =>
    if choose cl size = cf then (s.1, some (t ++ cl, cf))
    else (s.1 ++ [(t, cf)], some (cl, choose cl size))

/-- The flush after the loop (`if current_text: chunks.append(...)`). -/
def chunkFlush (s : List (List Nat × F) × Option (List Nat × F)) : List (List Nat × F) :=
  match s.2 with
  | none => s.1
  | some c => s.1 ++ [c]

/-- Transcription of `ImageGen._build_text_chunks` (src/draw.py:401-419). -/
def buildTextChunks (text : List Nat) (size : Nat) : List (List Nat × F) :=
  chunkFlush ((splitTextClusters comb text).foldl (chunkStep choose size) ([], none))

/-- `font.getlength(content)`: the sum of per-code-point advances. -/
def chunkWidth (f : F) (content : List Nat) : ℚ :=
  (content.map (adv f)).sum

/-- Transcription of `ImageGen._measure_text_mixed` (src/draw.py:421-432):
total width is the sum of chunk widths, height the max of chunk bbox heights
(`font.getbbox` always returns a 4-tuple, so the `if bbox` branch is taken). -/
def measureTextMixed (text : List Nat) (size : Nat) : ℚ × ℚ :=
  (buildTextChunks comb choose text size).foldl
    (fun acc ch => (acc.1 + chunkWidth adv ch.2 ch.1, max acc.2 (bboxH ch.2 ch.1))) (0, 0)

/-- The default ellipsis suffix "..." of `_truncate_text_to_width`. -/
def dotsSuffix : List Nat := [46, 46, 46]

/-- The keep-loop of `_truncate_text_to_width` (src/draw.py:447-454): greedily
keep whole clusters while the running width plus the cluster and suffix widths
stays within the budget, breaking at the first failure. -/
def truncKeep (measure1 : List Nat → ℚ) (suffixW maxW : ℚ) :
    ℚ → List (List Nat) → List (List Nat)
  | _, [] => []
  | curW, cl :: rest =>
    if maxW < curW + measure1 cl + suffixW then []
    else cl :: truncKeep measure1 suffixW maxW (curW + measure1 cl) rest

/-- `("".join(kept) + suffix) if kept else suffix`. -/
def truncResult (kept : List (List Nat)) (suffix : List Nat) : List Nat :=
  if kept = [] then suffix else kept.flatten ++ suffix

/-- Transcription of `ImageGen._truncate_text_to_width` (src/draw.py:434-456)
at its default suffix "...". -/
def truncateTextToWidth (text : List Nat) (size : Nat) (maxW : ℚ) : List Nat :=
  if text = [] then text
  else if (measureTextMixed comb choose adv bboxH text size).1 ≤ maxW then text
  else if maxW < (measureTextMixed comb choose adv bboxH dotsSuffix size).1 then []
  else truncResult
    (truncKeep (fun cl => (measureTextMixed comb choose adv bboxH cl size).1)
      (measureTextMixed comb choose adv bboxH dotsSuffix size).1 maxW 0
      (splitTextClusters comb text))
    dotsSuffix

theorem foldl_measure_fst (chunks : List (List Nat × F)) :
    ∀ a : ℚ × ℚ,
      (chunks.foldl
        (fun acc ch => (acc.1 + chunkWidth adv ch.2 ch.1, max acc.2 (bboxH ch.2 ch.1))) a).1
      = a.1 + (chunks.map fun ch => chunkWidth adv ch.2 ch.1).sum := by
  induction chunks with
  | nil => intro a; simp
  | cons ch rest ih =>
    intro a
    rw [List.foldl_cons, ih]
    simp
    ring

/-- The width accounted by a chunk-builder state. -/
def stateWidth (s : List (List Nat × F) × Option (List Nat × F)) : ℚ :=
  (s.1.map fun ch => chunkWidth adv ch.2 ch.1).sum +
    match s.2 with
    | none => 0
    | some (t, f) => chunkWidth adv f t

theorem chunkWidth_append (f : F) (t u : List Nat) :
    chunkWidth adv f (t ++ u) = chunkWidth adv f t + chunkWidth adv f u := by
  unfold chunkWidth
  rw [List.map_append, List.sum_append]

theorem stateWidth_step (size : Nat) (s : List (List Nat × F) × Option (List Nat × F))
    (cl : List Nat) :
    stateWidth adv (chunkStep choose size s cl)
      = stateWidth adv s + chunkWidth adv (choose cl size) cl := by
  rcases s with ⟨chunks, cur⟩
  rcases cur with _ | ⟨t, cf⟩
  · simp [chunkStep, stateWidth]
  · by_cases h : choose cl size = cf
    · simp only [chunkStep, stateWidth, if_pos h, chunkWidth_append]
      rw [← h]
      ring
    · simp only [chunkStep, stateWidth, if_neg h, List.map_append, List.sum_append,
        List.map_cons, List.map_nil, List.sum_cons, List.sum_nil]
      ring

theorem stateWidth_flush (s : List (List Nat × F) × Option (List Nat × F)) :
    ((chunkFlush s).map fun ch => chunkWidth adv ch.2 ch.1).sum = stateWidth adv s := by
  rcases s with ⟨chunks, _ | ⟨t, cf⟩⟩ <;>
    simp [chunkFlush, stateWidth]

theorem foldl_chunkStep_width (size : Nat) (cls : List (List Nat)) :
    ∀ s, stateWidth adv (cls.foldl (chunkStep choose size) s)
      = stateWidth adv s + (cls.map fun cl => chunkWidth adv (choose cl size) cl).sum := by
  induction cls with
  | nil => intro s; simp
  | cons cl rest ih =>
    intro s
    rw [List.foldl_cons, ih, stateWidth_step]
    simp
    ring

/-- Master width formula: the measured width is the sum, over produced clusters,
of the cluster's advance-sum in its chosen font. -/
theorem measure_width_eq (text : List Nat) (size : Nat) :
    (measureTextMixed comb choose adv bboxH text size).1
      = ((splitTextClusters comb text).map fun cl => chunkWidth adv (choose cl size) cl).sum := by
  unfold measureTextMixed buildTextChunks
  rw [foldl_measure_fst, stateWidth_flush, foldl_chunkStep_width]
  simp [stateWidth]

/-- Measuring one produced cluster gives exactly its chunk width. -/
theorem measure_single_cluster {cl : List Nat} (hne : cl ≠ []) (hch : GlueChain comb cl)
    (size : Nat) :
    (measureTextMixed comb choose adv bboxH cl size).1
      = chunkWidth adv (choose cl size) cl := by
  rw [measure_width_eq, split_glue_chain comb hne hch]
  simp

theorem chunkWidth_nonneg (hadv : ∀ f c, 0 ≤ adv f c) (f : F) (content : List Nat) :
    0 ≤ chunkWidth adv f content := by
  unfold chunkWidth
  apply List.sum_nonneg
  intro x hx
  obtain ⟨c, _, rfl⟩ := List.mem_map.mp hx
  exact hadv f c

theorem measure_nonneg (hadv : ∀ f c, 0 ≤ adv f c) (text : List Nat) (size : Nat) :
    0 ≤ (measureTextMixed comb choose adv bboxH text size).1 := by
  rw [measure_width_eq]
  apply List.sum_nonneg
  intro x hx
  obtain ⟨cl, _, rfl⟩ := List.mem_map.mp hx
  exact chunkWidth_nonneg adv hadv _ cl

theorem truncKeep_sum (m : List Nat → ℚ) (sw maxW : ℚ) (l : List (List Nat)) :
    ∀ curW, curW + sw ≤ maxW →
      curW + ((truncKeep m sw maxW curW l).map m).sum + sw ≤ maxW := by
  induction l with
  | nil =>
    intro curW h
    simp only [truncKeep, List.map_nil, List.sum_nil, add_zero]
    exact h
  | cons cl rest ih =>
    intro curW h
    simp only [truncKeep]
    split_ifs with hbr
    · simpa using h
    · push_neg at hbr
      have hrec := ih (curW + m cl) hbr
      simp only [List.map_cons, List.sum_cons]
      linarith

theorem truncKeep_take (m : List Nat → ℚ) (sw maxW : ℚ) (l : List (List Nat)) :
    ∀ curW, ∃ k, truncKeep m sw maxW curW l = l.take k ∧ k ≤ l.length := by
  induction l with
  | nil => intro curW; exact ⟨0, rfl, by simp⟩
  | cons cl rest ih =>
    intro curW
    simp only [truncKeep]
    split_ifs with hbr
    · exact ⟨0, rfl, by simp⟩
    · obtain ⟨k, hk, hk2⟩ := ih (curW + m cl)
      exact ⟨k + 1, by rw [List.take_succ_cons, hk], by simpa using hk2⟩

end MixedText

/-- Core estimate for the truncating branch: when the suffix fits, the text does
not, and the keep-loop keeps at least one cluster, the assembled result still
measures within the budget. -/
theorem truncate_core {F : Type} [DecidableEq F] (comb : Nat → Bool)
    (choose : List Nat → Nat → F) (adv : F → Nat → ℚ) (bboxH : F → List Nat → ℚ)
    (hadv : ∀ f c, 0 ≤ adv f c) (h46 : comb 46 = false)
    (text : List Nat) (size : Nat) (maxW : ℚ)
    (hsw : (measureTextMixed comb choose adv bboxH dotsSuffix size).1 ≤ maxW)
    (hnofit : ¬ (measureTextMixed comb choose adv bboxH text size).1 ≤ maxW)
    (hkept_ne : truncKeep (fun cl => (measureTextMixed comb choose adv bboxH cl size).1)
      (measureTextMixed comb choose adv bboxH dotsSuffix size).1 maxW 0
      (splitTextClusters comb text) ≠ []) :
    (measureTextMixed comb choose adv bboxH
      ((truncKeep (fun cl => (measureTextMixed comb choose adv bboxH cl size).1)
        (measureTextMixed comb choose adv bboxH dotsSuffix size).1 maxW 0
        (splitTextClusters comb text)).flatten ++ dotsSuffix) size).1 ≤ maxW := by
  set m : List Nat → ℚ := fun cl => (measureTextMixed comb choose adv bboxH cl size).1
    with hm_def
  set sw : ℚ := (measureTextMixed comb choose adv bboxH dotsSuffix size).1 with hsw_def
  set cls : List (List Nat) := splitTextClusters comb text with hcls_def
  set kept : List (List Nat) := truncKeep m sw maxW 0 cls with hkept_def
  have hsw0 : 0 ≤ sw := measure_nonneg comb choose adv bboxH hadv dotsSuffix size
  obtain ⟨k, hk_take0, hk_le⟩ := truncKeep_take m sw maxW cls 0
  have hk_take : kept = cls.take k := hk_take0
  have hok : ∀ cl ∈ cls, cl ≠ [] ∧ GlueChain comb cl := split_clusters_ok comb text
  have hm_cluster : ∀ cl ∈ cls, m cl = chunkWidth adv (choose cl size) cl := by
    intro cl hcl
    exact measure_single_cluster comb choose adv bboxH (hok cl hcl).1 (hok cl hcl).2 size
  have hfull : (cls.map m).sum = (measureTextMixed comb choose adv bboxH text size).1 := by
    rw [measure_width_eq, List.map_congr_left hm_cluster]
  have hproper : kept ≠ cls := by
    intro he
    have hb := truncKeep_sum m sw maxW cls 0 (by linarith)
    rw [← hkept_def, he, hfull] at hb
    exact hnofit (by linarith)
  have hklt : k < cls.length :=
    lt_of_le_of_ne hk_le (fun he => hproper (by rw [hk_take, he, List.take_length]))
  have hdrop_ne : cls.drop k ≠ [] := by
    intro hd
    rw [List.drop_eq_nil_iff] at hd
    omega
  obtain ⟨next, rest', hnr⟩ := List.exists_cons_of_ne_nil hdrop_ne
  have hsplit_cls : cls = kept ++ (next :: rest') := by
    rw [hk_take, ← hnr, List.take_append_drop]
  have hbr0 : List.Chain' (fun a b => glueCp comb (a.getLastD 0) (b.headD 0) = false) cls :=
    split_breaksOK comb text
  rw [hsplit_cls] at hbr0
  have hlink := (List.chain'_append.mp hbr0).2.2
  have hR : glueCp comb ((kept.getLastD []).getLastD 0) (next.headD 0) = false :=
    hlink (kept.getLastD []) ((getLast?_of_ne_nil hkept_ne []).symm ▸ rfl) next rfl
  have hlastK : (kept.getLastD []).getLastD 0 ≠ 0x200D := by
    have h' := (Bool.or_eq_false_iff.mp hR).2
    simpa using h'
  obtain ⟨ks, z, hkz⟩ := kept.eq_nil_or_concat.resolve_left hkept_ne
  rw [List.concat_eq_append] at hkz
  have hzk : z ∈ kept := by rw [hkz]; simp
  have hz_cls : z ∈ cls := by
    rw [hk_take] at hzk
    exact List.take_subset k cls hzk
  have hz_ne : z ≠ [] := (hok z hz_cls).1
  have hflat_ne : kept.flatten ≠ [] := by
    rw [hkz, List.flatten_append]
    simp only [List.flatten_cons, List.flatten_nil, List.append_nil]
    intro h
    exact hz_ne (List.append_eq_nil.mp h).2
  have hlastz : kept.getLastD [] = z := by rw [hkz, List.getLastD_concat]
  have hflat_last : kept.flatten.getLastD 0 = z.getLastD 0 := by
    rw [hkz, List.flatten_append]
    simp only [List.flatten_cons, List.flatten_nil, List.append_nil]
    obtain ⟨z', a, hza⟩ := z.eq_nil_or_concat.resolve_left hz_ne
    rw [List.concat_eq_append] at hza
    rw [hza, ← List.append_assoc, List.getLastD_concat, List.getLastD_concat]
  have hkept_ok : ∀ cl ∈ kept, cl ≠ [] ∧ GlueChain comb cl := by
    intro cl hcl
    rw [hk_take] at hcl
    exact hok cl (List.take_subset k cls hcl)
  have hkept_breaks : BreaksOK comb kept := by
    rw [hk_take]
    exact List.Chain'.take (split_breaksOK comb text) k
  have hflat_last_ne : kept.flatten.getLastD 0 ≠ 0x200D := by
    rw [hflat_last, ← hlastz]
    exact hlastK
  have hdots_head : joinsCluster comb (dotsSuffix.headD 0) = false := by
    have h' : dotsSuffix.headD 0 = 46 := rfl
    rw [h']
    unfold joinsCluster
    rw [h46]
    rfl
  have hsplit_res : splitTextClusters comb (kept.flatten ++ dotsSuffix)
      = kept ++ splitTextClusters comb dotsSuffix := by
    rw [split_append comb hflat_ne hflat_last_ne (by decide) hdots_head,
      split_flatten_clusters comb hkept_ok hkept_breaks]
  rw [measure_width_eq, hsplit_res, List.map_append, List.sum_append]
  have hdots_w : ((splitTextClusters comb dotsSuffix).map
      fun cl => chunkWidth adv (choose cl size) cl).sum = sw :=
    (measure_width_eq comb choose adv bboxH dotsSuffix size).symm
  rw [hdots_w]
  have hkept_w : (kept.map fun cl => chunkWidth adv (choose cl size) cl).sum
      = (kept.map m).sum := by
    refine congrArg List.sum (List.map_congr_left ?_)
    intro cl hcl
    rw [hk_take] at hcl
    exact (hm_cluster cl (List.take_subset k cls hcl)).symm
  rw [hkept_w]
  have hbound := truncKeep_sum m sw maxW cls 0 (by linarith)
  rw [← hkept_def] at hbound
  linarith

/-- Shared helper: whenever the suffix "..." fits the budget, a truncated text
measures within the budget. -/
theorem truncate_width_le {F : Type} [DecidableEq F] (comb : Nat → Bool)
    (choose : List Nat → Nat → F) (adv : F → Nat → ℚ) (bboxH : F → List Nat → ℚ)
    (hadv : ∀ f c, 0 ≤ adv f c) (h46 : comb 46 = false)
    (text : List Nat) (size : Nat) (maxW : ℚ)
    (hsw : (measureTextMixed comb choose adv bboxH dotsSuffix size).1 ≤ maxW) :
    (measureTextMixed comb choose adv bboxH
      (truncateTextToWidth comb choose adv bboxH text size maxW) size).1 ≤ maxW := by
  have hsw0 : 0 ≤ (measureTextMixed comb choose adv bboxH dotsSuffix size).1 :=
    measure_nonneg comb choose adv bboxH hadv dotsSuffix size
  unfold truncateTextToWidth
  split_ifs with h0 hfit hbig
  · rw [h0]
    have hnil : (measureTextMixed comb choose adv bboxH ([] : List Nat) size).1 = 0 := by
      rw [measure_width_eq]
      rfl
    rw [hnil]
    linarith
  · exact hfit
  · exact absurd hsw (not_le.mpr hbig)
  · by_cases hk : truncKeep (fun cl => (measureTextMixed comb choose adv bboxH cl size).1)
        (measureTextMixed comb choose adv bboxH dotsSuffix size).1 maxW 0
        (splitTextClusters comb text) = []
    · rw [hk]
      unfold truncResult
      rw [if_pos rfl]
      exact hsw
    · unfold truncResult
      rw [if_neg hk]
      exact truncate_core comb choose adv bboxH hadv h46 text size maxW hsw hfit hk

/-- Claim C3 (amended): truncation with the default suffix "..." returns the
text unchanged when it already fits; whenever the measured suffix width is
within the budget, the result's measured width is within the budget; and when
the budget is below the suffix width and the text itself overflows the budget,
it returns the empty string. Font advances are nonnegative and '.' is not a
combining mark, as for real fonts and the real Unicode table. -/
theorem truncate_to_width_spec {F : Type} [DecidableEq F] (comb : Nat → Bool)
    (choose : List Nat → Nat → F) (adv : F → Nat → ℚ) (bboxH : F → List Nat → ℚ)
    (hadv : ∀ f c, 0 ≤ adv f c) (h46 : comb 46 = false)
    (text : List Nat) (size : Nat) (maxW : ℚ) :
    ((measureTextMixed comb choose adv bboxH text size).1 ≤ maxW →
      truncateTextToWidth comb choose adv bboxH text size maxW = text)
    ∧ ((measureTextMixed comb choose adv bboxH dotsSuffix size).1 ≤ maxW →
      (measureTextMixed comb choose adv bboxH
        (truncateTextToWidth comb choose adv bboxH text size maxW) size).1 ≤ maxW)
    ∧ (maxW < (measureTextMixed comb choose adv bboxH dotsSuffix size).1 →
      maxW < (measureTextMixed comb choose adv bboxH text size).1 →
      truncateTextToWidth comb choose adv bboxH text size maxW = []) := by
  refine ⟨?_, ?_, ?_⟩
  · intro hfit
    unfold truncateTextToWidth
    split_ifs <;> rfl
  · intro hsw
    exact truncate_width_le comb choose adv bboxH hadv h46 text size maxW hsw
  · intro hbig hover
    unfold truncateTextToWidth
    split_ifs with h0 h1
    · exact h0
    · exact absurd h1 (not_le.mpr hover)
    · rfl

/-- Claim C4: truncation is idempotent — re-truncating a truncated text at the
same size and budget returns it unchanged. Font advances are nonnegative and
'.' is not a combining mark, as for real fonts and the real Unicode table. -/
theorem truncate_idempotent {F : Type} [DecidableEq F] (comb : Nat → Bool)
    (choose : List Nat → Nat → F) (adv : F → Nat → ℚ) (bboxH : F → List Nat → ℚ)
    (hadv : ∀ f c, 0 ≤ adv f c) (h46 : comb 46 = false)
    (text : List Nat) (size : Nat) (maxW : ℚ) :
    truncateTextToWidth comb choose adv bboxH
      (truncateTextToWidth comb choose adv bboxH text size maxW) size maxW
    = truncateTextToWidth comb choose adv bboxH text size maxW := by
  have hfix : ∀ r : List Nat, (measureTextMixed comb choose adv bboxH r size).1 ≤ maxW →
      truncateTextToWidth comb choose adv bboxH r size maxW = r := by
    intro r hr
    unfold truncateTextToWidth
    split_ifs <;> rfl
  by_cases h0 : text = []
  · rw [h0]
    have : truncateTextToWidth comb choose adv bboxH [] size maxW = [] := by
      unfold truncateTextToWidth
      rw [if_pos rfl]
    rw [this, this]
  · by_cases hfit : (measureTextMixed comb choose adv bboxH text size).1 ≤ maxW
    · rw [hfix text hfit]
      exact hfix text hfit
    · by_cases hbig : maxW < (measureTextMixed comb choose adv bboxH dotsSuffix size).1
      · have hres : truncateTextToWidth comb choose adv bboxH text size maxW = [] := by
          unfold truncateTextToWidth
          rw [if_neg h0, if_neg hfit, if_pos hbig]
        rw [hres]
        unfold truncateTextToWidth
        rw [if_pos rfl]
      · push_neg at hbig
        exact hfix _ (truncate_width_le comb choose adv bboxH hadv h46 text size maxW hbig)

/-- The trivial one-font environment used by the witnesses: every code point
advances by 1 at any size, nothing is a combining mark. -/
def constFont : List Nat → Nat → Unit := fun _ _ => ()

def constAdv : Unit → Nat → ℚ := fun _ _ => 1

def constBbox : Unit → List Nat → ℚ := fun _ _ => 0

def noComb : Nat → Bool := fun _ => false

theorem sum_map_one (l : List Nat) : (l.map (fun _ => (1 : ℚ))).sum = l.length := by
  induction l with
  | nil => simp
  | cons c cs ih =>
    simp only [List.map_cons, List.sum_cons, ih, List.length_cons]
    push_cast
    ring

theorem sum_map_length (cls : List (List Nat)) :
    (cls.map (fun cl => (cl.length : ℚ))).sum = (cls.flatten.length : ℚ) := by
  induction cls with
  | nil => simp
  | cons cl rest ih =>
    simp only [List.map_cons, List.sum_cons, ih, List.flatten_cons, List.length_append]
    push_cast
    ring

/-- Under the constant-advance environment the measured width is the length. -/
theorem measure_const (comb : Nat → Bool) (text : List Nat) (size : Nat) :
    (measureTextMixed comb constFont constAdv constBbox text size).1 = text.length := by
  rw [measure_width_eq]
  have h1 : ∀ cl ∈ splitTextClusters comb text,
      chunkWidth constAdv (constFont cl size) cl = (cl.length : ℚ) := by
    intro cl _
    unfold chunkWidth constAdv
    exact sum_map_one cl
  rw [List.map_congr_left h1, sum_map_length, split_flatten]

/-- Counterexample to claim C3 as stated: with one font of constant advance 1
(so "a" measures 1 and "..." measures 3) and budget 2, the budget is smaller
than the suffix width yet truncating "a" returns "a", not the empty string —
a text that already fits is returned unchanged even below the suffix width. -/
theorem truncate_small_budget_not_empty :
    (2 : ℚ) < (measureTextMixed noComb constFont constAdv constBbox dotsSuffix 1).1
    ∧ truncateTextToWidth noComb constFont constAdv constBbox [97] 1 2 = [97] := by
  constructor
  · rw [measure_const]
    norm_num [dotsSuffix]
  · unfold truncateTextToWidth
    rw [if_neg (by simp), if_pos (by rw [measure_const]; norm_num)]

/-- Witness for the amended C3 in the constant-advance environment: "ab" fits a
budget of 10 and is returned unchanged, with result width within budget. -/
theorem truncate_to_width_spec_witness :
    truncateTextToWidth noComb constFont constAdv constBbox [97, 98] 1 10 = [97, 98]
    ∧ (measureTextMixed noComb constFont constAdv constBbox
        (truncateTextToWidth noComb constFont constAdv constBbox [97, 98] 1 10) 1).1 ≤ 10 := by
  have hth := truncate_to_width_spec noComb constFont constAdv constBbox
    (fun _ _ => by norm_num [constAdv]) rfl [97, 98] 1 10
  exact ⟨hth.1 (by rw [measure_const]; norm_num),
         hth.2.1 (by rw [measure_const]; norm_num [dotsSuffix])⟩

/-- Witness for C4 in the constant-advance environment on a text that needs
truncating. -/
theorem truncate_idempotent_witness :
    truncateTextToWidth noComb constFont constAdv constBbox
      (truncateTextToWidth noComb constFont constAdv constBbox
        [104, 101, 108, 108, 111] 1 4) 1 4
    = truncateTextToWidth noComb constFont constAdv constBbox
        [104, 101, 108, 108, 111] 1 4 :=
  truncate_idempotent noComb constFont constAdv constBbox
    (fun _ _ => by norm_num [constAdv]) rfl [104, 101, 108, 108, 111] 1 4
